import Mathlib

/-!
Verification development for the lgd-liteStat daily batch pipeline
(python-scheduler).  The definitions below are a shallow embedding of the
aggregation merge engine and its helpers:

* the panel-address encoder and the history-driven analysis query of
  get_history_data.py (CTE glass_defects, CTE history_source, final SELECT);
* the per-day aggregation query of run_daily_analysis.py (CTEs
  target_inspection, target_history, inner_stats, grouped_defects, the final
  left join and the ON CONFLICT accumulation clause);
* the master-catalog upserts of daily_metadata_job.py (update_masters,
  update_model_layout_link);
* the hash bucketing function get_bucket of get_history_data.py (MD5 mod 100);
* the defect-name parser parse_defect_name of get_insp_data.py.

Timestamps are modelled as strings of shape YYYY-MM-DD followed by a time of
day; extracting the calendar day (SQL strftime with a %Y-%m-%d format, or a
CAST to DATE) is taking the first ten characters.  SQL NULL is modelled with
Option, a fallible SQL expression (CAST of a non-numeric string) with Except.
Tables touched by INSERT .. ON CONFLICT are association lists from the
primary key to the remaining columns, and the conflict clause is applied
sequentially, one inserted row at a time.
-/

set_option maxRecDepth 100000

/-! ## Generic list helpers -/

/-- Deduplication keeping the first occurrence of each element, in order:
the embedding of SQL SELECT DISTINCT / GROUP BY key enumeration and of the
DuckDB list_distinct function. -/
def dedupFirst {α : Type} [DecidableEq α] (l : List α) : List α :=
  l.foldl (fun acc x => if x ∈ acc then acc else acc ++ [x]) []

deriving instance DecidableEq for Except

/-- Error-propagating map: the embedding of evaluating a SQL expression on
every row of a list, where any single failure aborts the whole query. -/
def mapExcept {α β ε : Type} (f : α → Except ε β) : List α → Except ε (List β)
  | [] => Except.ok []
  | x :: xs =>
    match f x, mapExcept f xs with
    | Except.ok y, Except.ok ys => Except.ok (y :: ys)
    | Except.error e, _ => Except.error e
    | _, Except.error e => Except.error e

/-- Insertion into a list sorted by the boolean relation le. -/
def insertSorted {α : Type} (le : α → α → Bool) (x : α) : List α → List α
  | [] => [x]
  | y :: ys => if le x y then x :: y :: ys else y :: insertSorted le x ys

/-- Insertion sort by the boolean relation le: the embedding of ORDER BY. -/
def sortBy {α : Type} (le : α → α → Bool) : List α → List α
  | [] => []
  | x :: xs => insertSorted le x (sortBy le xs)

/-! ## Text helpers (Python str and SQL string functions) -/

/-- Lexicographic comparison of character lists by code point. -/
def lexLt : List Char → List Char → Bool
  | [], [] => false
  | [], _ :: _ => true
  | _ :: _, [] => false
  | a :: as, b :: bs =>
    if a.toNat < b.toNat then true
    else if a.toNat = b.toNat then lexLt as bs else false

/-- Lexicographic string comparison (the order used by SQL MAX on the
YYYY-MM-DD hh:mm:ss timestamp strings, where it agrees with chronological
order). -/
def strLtB (a b : String) : Bool := lexLt a.data b.data

/-- Binary maximum under strLtB. -/
def maxStr (a b : String) : String := if strLtB a b then b else a

/-- SQL MAX over a column of strings; the empty string is the neutral
element (groups are never empty in the queries below). -/
def maxList (l : List String) : String := l.foldl maxStr ""

/-- Calendar day of a modelled timestamp: its first ten characters
(YYYY-MM-DD).  Embeds strftime(ts, %Y-%m-%d) and CAST(ts AS DATE). -/
def tsDay (t : String) : String := String.mk (t.data.take 10)

/-- SQL substr(s, 3, 2): characters three and four, one-based. -/
def substr_3_2 (s : String) : String := String.mk ((s.data.drop 2).take 2)

/-- Python val.split on a dash: splitting a character list at every dash,
keeping empty parts. -/
def splitOnDash : List Char → List (List Char)
  | [] => [[]]
  | c :: rest =>
    let r := splitOnDash rest
    if c = '-' then [] :: r
    else
      match r with
      | [] => [[c]]
      | h :: t => (c :: h) :: t

/-- Python str.split applied to a string. -/
def pySplitDash (s : String) : List String := (splitOnDash s.data).map String.mk

/-- Whitespace stripping on a character list. -/
def trimChars (l : List Char) : List Char :=
  ((l.dropWhile Char.isWhitespace).reverse.dropWhile Char.isWhitespace).reverse

/-- Python str.strip. -/
def pyStrip (s : String) : String := String.mk (trimChars s.data)

/-! ## Python values reaching pandas apply

A pandas column cell is either a string or some non-string value (NaN,
None, a number ...).  Both get_bucket and parse_defect_name branch on
isinstance(val, str), so only this distinction matters. -/

/-- A value taken from a pandas column: a string, or any non-string cell. -/
inductive PyVal : Type
  | str (s : String)
  | nonStr
deriving DecidableEq, Repr

/-! ## Defect name parsing (get_insp_data.py, preprocess_df) -/

/-- Embedding of parse_defect_name in preprocess_df: non-strings map to
None; otherwise the value is split on dashes and, when there are at least
four parts, the second and the fourth are stripped and joined by a dash. -/
def parse_defect_name : PyVal → Option String
  | PyVal.nonStr => none
  | PyVal.str val =>
    let parts := pySplitDash val
    if 4 ≤ parts.length then
      some (pyStrip (parts.getD 1 "") ++ "-" ++ pyStrip (parts.getD 3 ""))
    else none

/-- The parser as the specification words it: None when the value is not a
string or splits on a dash into fewer than four parts, and otherwise the
second and fourth dash-separated parts, whitespace-stripped and joined by a
dash. -/
def parseDefectNameSpec : PyVal → Option String
  | PyVal.nonStr => none
  | PyVal.str val =>
    let parts := pySplitDash val
    if parts.length < 4 then none
    else some (pyStrip (parts.getD 1 "") ++ "-" ++ pyStrip (parts.getD 3 ""))

/-! ## MD5 and hash bucketing (get_history_data.py, get_bucket)

get_bucket computes int(hashlib.md5(val.encode("utf-8")).hexdigest(), 16)
modulo 100, zero-padded to two digits; non-strings fall into bucket 00.
The MD5 algorithm is embedded below over Nat with explicit mod 2^32. -/

/-- MD5 round constants: floor(abs(sin(i+1)) * 2^32). -/
def md5K : List Nat :=
  [3614090360, 3905402710, 606105819, 3250441966, 4118548399, 1200080426, 2821735955,
   4249261313, 1770035416, 2336552879, 4294925233, 2304563134, 1804603682, 4254626195,
   2792965006, 1236535329, 4129170786, 3225465664, 643717713, 3921069994, 3593408605,
   38016083, 3634488961, 3889429448, 568446438, 3275163606, 4107603335, 1163531501,
   2850285829, 4243563512, 1735328473, 2368359562, 4294588738, 2272392833, 1839030562,
   4259657740, 2763975236, 1272893353, 4139469664, 3200236656, 681279174, 3936430074,
   3572445317, 76029189, 3654602809, 3873151461, 530742520, 3299628645, 4096336452,
   1126891415, 2878612391, 4237533241, 1700485571, 2399980690, 4293915773, 2240044497,
   1873313359, 4264355552, 2734768916, 1309151649, 4149444226, 3174756917, 718787259,
   3951481745]

/-- MD5 per-round left-rotation amounts. -/
def md5S : List Nat :=
  [7, 12, 17, 22, 7, 12, 17, 22, 7, 12, 17, 22, 7, 12, 17, 22,
   5, 9, 14, 20, 5, 9, 14, 20, 5, 9, 14, 20, 5, 9, 14, 20,
   4, 11, 16, 23, 4, 11, 16, 23, 4, 11, 16, 23, 4, 11, 16, 23,
   6, 10, 15, 21, 6, 10, 15, 21, 6, 10, 15, 21, 6, 10, 15, 21]

/-- 32-bit left rotation on Nat. -/
def rotl32 (x n : Nat) : Nat :=
  ((x <<< n) % 4294967296) ||| (x >>> (32 - n))

/-- 32-bit bitwise complement on Nat. -/
def md5not (x : Nat) : Nat := x ^^^ 4294967295

/-- UTF-8 encoding of one character, as byte values (Python encode). -/
def utf8Bytes (c : Char) : List Nat :=
  let n := c.toNat
  if n < 128 then [n]
  else if n < 2048 then [192 ||| (n >>> 6), 128 ||| (n &&& 63)]
  else if n < 65536 then
    [224 ||| (n >>> 12), 128 ||| ((n >>> 6) &&& 63), 128 ||| (n &&& 63)]
  else
    [240 ||| (n >>> 18), 128 ||| ((n >>> 12) &&& 63),
     128 ||| ((n >>> 6) &&& 63), 128 ||| (n &&& 63)]

/-- UTF-8 bytes of a string. -/
def strBytes (s : String) : List Nat := s.data.flatMap utf8Bytes

/-- Little-endian 8-byte rendering of a Nat. -/
def leBytes8 (n : Nat) : List Nat := (List.range 8).map (fun i => (n >>> (8 * i)) % 256)

/-- Little-endian 4-byte rendering of a Nat. -/
def leBytes4 (n : Nat) : List Nat := (List.range 4).map (fun i => (n >>> (8 * i)) % 256)

/-- MD5 padding: a 0x80 byte, zeros up to 56 mod 64, then the bit length as
eight little-endian bytes. -/
def md5pad (msg : List Nat) : List Nat :=
  let z := (120 - ((msg.length + 1) % 64)) % 64
  msg ++ 128 :: List.replicate z 0 ++ leBytes8 ((8 * msg.length) % 18446744073709551616)

/-- Fuel-driven split of a byte list into 64-byte chunks. -/
def chunks64Go : Nat → List Nat → List (List Nat)
  | 0, _ => []
  | _, [] => []
  | fuel + 1, l => (l.take 64) :: chunks64Go fuel (l.drop 64)

/-- Split of a byte list into 64-byte chunks. -/
def chunks64 (l : List Nat) : List (List Nat) := chunks64Go l.length l

/-- The g-th little-endian 32-bit word of a 64-byte chunk. -/
def md5word (chunk : List Nat) (g : Nat) : Nat :=
  chunk.getD (4 * g) 0 + 256 * (chunk.getD (4 * g + 1) 0 +
    256 * (chunk.getD (4 * g + 2) 0 + 256 * chunk.getD (4 * g + 3) 0))

/-- One MD5 round on the running state (a, b, c, d). -/
def md5round (chunk : List Nat) (st : Nat × Nat × Nat × Nat) (i : Nat) :
    Nat × Nat × Nat × Nat :=
  let (a, b, c, d) := st
  let (f, g) :=
    if i < 16 then ((b &&& c) ||| (md5not b &&& d), i)
    else if i < 32 then ((d &&& b) ||| (md5not d &&& c), (5 * i + 1) % 16)
    else if i < 48 then (b ^^^ c ^^^ d, (3 * i + 5) % 16)
    else (c ^^^ (b ||| md5not d), (7 * i) % 16)
  let f := (f + a + md5K.getD i 0 + md5word chunk g) % 4294967296
  (d, (b + rotl32 f (md5S.getD i 0)) % 4294967296, b, c)

/-- Processing one 64-byte chunk: 64 rounds, then addition into the state. -/
def md5chunk (st : Nat × Nat × Nat × Nat) (chunk : List Nat) : Nat × Nat × Nat × Nat :=
  let (a0, b0, c0, d0) := st
  let (a, b, c, d) := (List.range 64).foldl (md5round chunk) st
  ((a0 + a) % 4294967296, (b0 + b) % 4294967296,
   (c0 + c) % 4294967296, (d0 + d) % 4294967296)

/-- The sixteen MD5 digest bytes of a byte message. -/
def md5digest (msg : List Nat) : List Nat :=
  let (a, b, c, d) := (chunks64 (md5pad msg)).foldl md5chunk
    (1732584193, 4023233417, 2562383102, 271733878)
  leBytes4 a ++ leBytes4 b ++ leBytes4 c ++ leBytes4 d

/-- Python int(hexdigest, 16): the digest bytes read as one big-endian
number. -/
def md5Int (msg : List Nat) : Nat :=
  (md5digest msg).foldl (fun acc b => acc * 256 + b) 0

/-- Zero-padding of a number below 100 to two decimal digits (the Python
format 02d). -/
def pad2 (n : Nat) : String := if n < 10 then "0" ++ toString n else toString n

/-- Decimal value of a digit string (used only to state theorems about the
bucket strings). -/
def bucketVal (s : String) : Nat := s.data.foldl (fun a c => a * 10 + (c.toNat - 48)) 0

/-- Embedding of get_bucket in get_history_data.py: non-strings fall into
the reserved bucket 00; a string is hashed with MD5, the digest read as a
hexadecimal integer, reduced modulo 100 and zero-padded to two digits. -/
def get_bucket : PyVal → String
  | PyVal.nonStr => "00"
  | PyVal.str val => pad2 (md5Int (strBytes val) % 100)

/-! ## Panel address encoder (get_history_data.py, analysis_sql, CTE
glass_defects)

The SQL is
  CASE WHEN panel_addr IS NOT NULL AND LENGTH(panel_addr) >= 2 THEN
    (ascii(SUBSTR(panel_addr, 1, 1)) - 65) * 10 +
    CAST(SUBSTR(panel_addr, 2, 1) AS INTEGER) + 1
  ELSE NULL END
Note that SUBSTR(panel_addr, 2, 1) is a single character: only the first
column digit is read.  CAST of a non-digit character raises a DuckDB
conversion error, which aborts the whole query; this is modelled with
Except. -/

/-- DuckDB CAST of a one-character string to INTEGER: the digit value, or a
conversion error for a non-digit. -/
def sqlCastInt (c : Char) : Except Unit Int :=
  if c.isDigit then Except.ok ((c.toNat : Int) - 48) else Except.error ()

/-- The CASE expression encoding a panel address into a linear grid index:
NULL input or an address shorter than two characters yields NULL; otherwise
the index (ascii(first char) - 65) * 10 + (value of second char) + 1, where
casting a non-digit second character is a query-aborting error. -/
def panelAddrIndex : Option String → Except Unit (Option Int)
  | none => Except.ok none
  | some s =>
    match s.data with
    | c0 :: c1 :: _ =>
      (sqlCastInt c1).map (fun d => some (((c0.toNat : Int) - 65) * 10 + d + 1))
    | _ => Except.ok none

/-! ## Lake row types

One inspection parquet row and one history parquet row, restricted to the
columns the embedded queries read.  The facility_code column doubles as the
hive partition key facility_code=... of the file path. -/

/-- An inspection lake row: defect_name comes from preprocess_df and may be
NULL, and panel_addr may be NULL. -/
structure InspRow : Type where
  product_id : String
  defect_name : Option String
  panel_addr : Option String
  inspection_end_ymdhms : String
  facility_code : String
deriving DecidableEq, Repr

/-- A history lake row (model_code is the product model column carried in
the history lake, read by the metadata job). -/
structure HistRow : Type where
  product_id : String
  model_code : String
  lot_id : String
  move_in_ymdhms : String
  process_code : String
  equipment_line_id : String
  equipment_machine_id : String
  equipment_path_id : String
  facility_code : String
deriving DecidableEq, Repr

/-! ## Generic keyed upsert (INSERT .. ON CONFLICT DO UPDATE)

A table is an association list from the primary key to the remaining
columns.  Inserting a row either appends it (key absent) or rewrites the
entries holding the key with merge old new (key present).  The queries
instantiate merge with full replacement (master catalogs) or with the
accumulate-and-concatenate clause of glass_stats. -/

/-- One upsert with a merge rule applied on conflict. -/
def upsertW {κ β : Type} [DecidableEq κ] (merge : β → β → β)
    (t : List (κ × β)) (k : κ) (v : β) : List (κ × β) :=
  if t.any (fun p => decide (p.1 = k)) then
    t.map (fun p => if p.1 = k then (p.1, merge p.2 v) else p)
  else t ++ [(k, v)]

/-- Value stored at a key. -/
def lookupW {κ β : Type} [DecidableEq κ] (t : List (κ × β)) (k : κ) : Option β :=
  (t.find? (fun p => decide (p.1 = k))).map (fun p => p.2)

/-- Sequential upsert of a batch of rows. -/
def runW {κ β : Type} [DecidableEq κ] (merge : β → β → β)
    (kvs : List (κ × β)) (t : List (κ × β)) : List (κ × β) :=
  kvs.foldl (fun t p => upsertW merge t p.1 p.2) t

/-! ## The per-day aggregation query of run_daily_analysis.py -/

/-- A row of the CTE target_inspection: inspection rows of the facility
restricted to the target date with a non-NULL defect_name; model_code is
derived as substr(product_id, 3, 2). -/
structure TIRow : Type where
  product_id : String
  defect_name : String
  model_code : String
  panel_addr : Option String
  inspection_end_ymdhms : String
deriving DecidableEq, Repr

/-- CTE target_inspection. -/
def target_inspection (insp : List InspRow) (facility target_date : String) :
    List TIRow :=
  insp.filterMap (fun r =>
    if r.facility_code = facility ∧ tsDay r.inspection_end_ymdhms = target_date then
      r.defect_name.map (fun dn =>
        { product_id := r.product_id, defect_name := dn,
          model_code := substr_3_2 r.product_id, panel_addr := r.panel_addr,
          inspection_end_ymdhms := r.inspection_end_ymdhms })
    else none)

/-- A row of the CTE inner_stats: per (product, defect, model, address)
occurrence count with the latest inspection end time. -/
structure InnerStat : Type where
  product_id : String
  defect_name : String
  model_code : String
  inspection_end_ymdhms : String
  panel_addr : String
  addr_count : Nat
deriving DecidableEq, Repr

/-- CTE inner_stats: rows with a non-NULL panel_addr grouped by
(product_id, defect_name, model_code, panel_addr). -/
def inner_stats (ti : List TIRow) : List InnerStat :=
  let rows := ti.filterMap (fun r => r.panel_addr.map (fun a => (r, a)))
  (dedupFirst (rows.map (fun p =>
      (p.1.product_id, p.1.defect_name, p.1.model_code, p.2)))).map (fun k =>
    let grp := rows.filter (fun p =>
      decide ((p.1.product_id, p.1.defect_name, p.1.model_code, p.2) = k))
    { product_id := k.1, defect_name := k.2.1, model_code := k.2.2.1,
      panel_addr := k.2.2.2,
      inspection_end_ymdhms := maxList (grp.map (fun p => p.1.inspection_end_ymdhms)),
      addr_count := grp.length })

/-- A row of the CTE grouped_defects: per (product, defect, model) totals
and the parallel address / count lists. -/
structure GroupedDefect : Type where
  product_id : String
  defect_name : String
  model_code : String
  inspection_time : String
  total_defects : Nat
  panel_addrs : List String
  panel_map : List Nat
deriving DecidableEq, Repr

/-- CTE grouped_defects. -/
def grouped_defects (ti : List TIRow) : List GroupedDefect :=
  let is := inner_stats ti
  (dedupFirst (is.map (fun r => (r.product_id, r.defect_name, r.model_code)))).map
    (fun k =>
      let grp := is.filter (fun r =>
        decide ((r.product_id, r.defect_name, r.model_code) = k))
      { product_id := k.1, defect_name := k.2.1, model_code := k.2.2,
        inspection_time := maxList (grp.map (fun r => r.inspection_end_ymdhms)),
        total_defects := (grp.map (fun r => r.addr_count)).sum,
        panel_addrs := grp.map (fun r => r.panel_addr),
        panel_map := grp.map (fun r => r.addr_count) })

/-- The non-key columns of a glass_stats row in run_daily_analysis.py (the
primary key is (product_id, defect_name)). -/
structure StatRow : Type where
  model_code : String
  lot_id : Option String
  work_time : Option String
  inspection_time : String
  process_code : Option String
  equipment_line_id : Option String
  equipment_machine_id : Option String
  equipment_path_id : Option String
  total_defects : Nat
  panel_map : List Nat
  panel_addrs : List String
  created_at : String
deriving DecidableEq, Repr

/-- The glass_stats primary key (product_id, defect_name). -/
abbrev StatKey : Type := String × String

/-- ORDER BY d.product_id, d.defect_name comparison. -/
def keyLe (a b : StatKey) : Bool :=
  if a.1 = b.1 then !(strLtB b.2 a.2) else strLtB a.1 b.1

/-- The LEFT JOIN step for one grouped_defects row: the matching history
rows of the facility (matched on product_id, with no date condition)
supply the descriptive columns; with no match the history columns are
NULL; with several matches one output row arises per match. -/
def joinRows (target_history : List HistRow) (now : String) (d : GroupedDefect) :
    List (StatKey × StatRow) :=
  match target_history.filter (fun h => decide (h.product_id = d.product_id)) with
  | [] =>
    [((d.product_id, d.defect_name),
      { model_code := d.model_code, lot_id := none, work_time := none,
        inspection_time := d.inspection_time, process_code := none,
        equipment_line_id := none, equipment_machine_id := none,
        equipment_path_id := none, total_defects := d.total_defects,
        panel_map := d.panel_map, panel_addrs := d.panel_addrs,
        created_at := now })]
  | hs => hs.map (fun h =>
      ((d.product_id, d.defect_name),
       { model_code := d.model_code, lot_id := some h.lot_id,
         work_time := some h.move_in_ymdhms,
         inspection_time := d.inspection_time,
         process_code := some h.process_code,
         equipment_line_id := some h.equipment_line_id,
         equipment_machine_id := some h.equipment_machine_id,
         equipment_path_id := some h.equipment_path_id,
         total_defects := d.total_defects, panel_map := d.panel_map,
         panel_addrs := d.panel_addrs, created_at := now }))

/-- The SELECT of the aggregation query: grouped_defects left-joined with
target_history (history of the facility, with no date filter) on
product_id, ordered by product and defect name. -/
def analysisRows (insp : List InspRow) (hist : List HistRow)
    (facility target_date now : String) : List (StatKey × StatRow) :=
  sortBy (fun a b => keyLe a.1 b.1)
    ((grouped_defects (target_inspection insp facility target_date)).flatMap
      (joinRows (hist.filter (fun h => decide (h.facility_code = facility))) now))

/-- The ON CONFLICT (product_id, defect_name) DO UPDATE clause of
run_daily_analysis.py: descriptive fields take the excluded (new) values,
total_defects accumulates, panel_map and panel_addrs concatenate, and
created_at is refreshed.  work_time is not in the update list and keeps its
existing value. -/
def applyConflict (old new : StatRow) : StatRow :=
  { model_code := new.model_code
    lot_id := new.lot_id
    work_time := old.work_time
    inspection_time := new.inspection_time
    process_code := new.process_code
    equipment_line_id := new.equipment_line_id
    equipment_machine_id := new.equipment_machine_id
    equipment_path_id := new.equipment_path_id
    total_defects := old.total_defects + new.total_defects
    panel_map := old.panel_map ++ new.panel_map
    panel_addrs := old.panel_addrs ++ new.panel_addrs
    created_at := new.created_at }

/-- One glass_stats upsert. -/
def upsertStat (tbl : List (StatKey × StatRow)) (k : StatKey) (v : StatRow) :
    List (StatKey × StatRow) :=
  upsertW applyConflict tbl k v

/-- Value of a glass_stats key. -/
def lookupStat (tbl : List (StatKey × StatRow)) (k : StatKey) : Option StatRow :=
  lookupW tbl k

/-- The whole per-day INSERT of run_daily_analysis.py: every selected row is
upserted, in order, into the glass_stats table. -/
def runDailyAnalysis (insp : List InspRow) (hist : List HistRow)
    (facility target_date now : String) (tbl : List (StatKey × StatRow)) :
    List (StatKey × StatRow) :=
  runW applyConflict (analysisRows insp hist facility target_date now) tbl

/-! ## The history-driven analysis query of get_history_data.py -/

/-- A row of the CTE glass_defects: per product, the distinct encoded grid
indices (NULL encodings removed by list_distinct) and the raw observed
addresses. -/
structure GDRow : Type where
  product_id : String
  defect_indices : List Int
  panel_addrs : List String
deriving DecidableEq, Repr

/-- CTE glass_defects: all inspection rows with a non-NULL panel_addr (no
facility and no date filter), grouped by product_id; the whole query fails
if any address encoding raises a cast error. -/
def glass_defects (insp : List InspRow) : Except Unit (List GDRow) :=
  let rows := insp.filterMap (fun r => r.panel_addr.map (fun a => (r.product_id, a)))
  mapExcept (fun pid =>
      let addrs := (rows.filter (fun p => decide (p.1 = pid))).map (fun p => p.2)
      (mapExcept (fun a => panelAddrIndex (some a)) addrs).map (fun idxs =>
        { product_id := pid, defect_indices := dedupFirst (idxs.filterMap id),
          panel_addrs := addrs }))
    (dedupFirst (rows.map (fun p => p.1)))

/-- A row inserted into the glass_stats table of get_history_data.py (its
primary key is product_id alone in this variant). -/
structure StatRow9 : Type where
  product_id : String
  lot_id : String
  product_model_code : String
  work_date : String
  total_defects : Nat
  panel_map : List Int
  panel_addrs : List String
  created_at : String
deriving DecidableEq, Repr

/-- The analysis_sql SELECT of get_history_data.py: history rows of the
facility (CTE history_source) whose move-in day is the target day,
left-joined with glass_defects on product_id; panel_map flags each of the
260 grid cells (range(1, 261)) with 1 when its index was observed, and a
product with no defect rows keeps zero counts and empty lists. -/
def historyAnalysis (insp : List InspRow) (hist : List HistRow)
    (facility target_day now : String) : Except Unit (List StatRow9) :=
  (glass_defects insp).map (fun gds =>
    let history_source := hist.filter (fun h => decide (h.facility_code = facility))
    (history_source.filter (fun h =>
        decide (tsDay h.move_in_ymdhms = target_day))).map (fun h =>
      let d := gds.find? (fun g => decide (g.product_id = h.product_id))
      { product_id := h.product_id, lot_id := h.lot_id,
        product_model_code := h.model_code,
        work_date := tsDay h.move_in_ymdhms,
        total_defects := (d.map (fun g => g.defect_indices.length)).getD 0,
        panel_map := (List.range' 1 260).map (fun idx =>
          if ((d.map (fun g => g.defect_indices)).getD []).contains (idx : Int)
          then 1 else 0),
        panel_addrs := (d.map (fun g => g.panel_addrs)).getD [],
        created_at := now }))

/-! ## Master catalog updates (daily_metadata_job.py) -/

/-- Key set of the model_master upsert: distinct model codes of the
facility's history rows on the target date. -/
def model_master_keys (hist : List HistRow) (facility target_date : String) :
    List String :=
  dedupFirst ((hist.filter (fun h =>
    decide (h.facility_code = facility ∧ tsDay h.move_in_ymdhms = target_date))).map
      (fun h => h.model_code))

/-- Key set of the defect_master upsert: distinct non-NULL defect names of
the facility's inspection rows on the target date. -/
def defect_master_keys (insp : List InspRow) (facility target_date : String) :
    List String :=
  dedupFirst ((insp.filter (fun r =>
    decide (r.facility_code = facility ∧
      tsDay r.inspection_end_ymdhms = target_date))).filterMap
        (fun r => r.defect_name))

/-- A part_no reference table row. -/
structure PartNoRow : Type where
  model_code : String
  part_no_name : String
deriving DecidableEq, Repr

/-- A pnl_map reference table row. -/
structure PnlMapRow : Type where
  part_no_name : String
  ref_panels : Option (List String)
deriving DecidableEq, Repr

/-- The model_layout_master source rows: part_no joined with pnl_map on
part_no_name, restricted to non-NULL ref_panels, grouped by model_code with
ANY_VALUE picking the first layout of each model. -/
def model_layout_pairs (pns : List PartNoRow) (pms : List PnlMapRow) :
    List (String × List String) :=
  let joined := pns.flatMap (fun pn =>
    (pms.filter (fun pm => decide (pm.part_no_name = pn.part_no_name))).filterMap
      (fun pm => pm.ref_panels.map (fun rp => (pn.model_code, rp))))
  (dedupFirst (joined.map (fun p => p.1))).map (fun m =>
    (m, ((joined.filter (fun p => decide (p.1 = m))).head?.map (fun p => p.2)).getD []))

/-- The two master upserts of update_masters: each catalog row is its
updated_at timestamp keyed by the catalog key (model_code, defect_name),
and ON CONFLICT DO UPDATE SET updated_at = now() replaces that value. -/
def update_masters (hist : List HistRow) (insp : List InspRow)
    (facility target_date : String) (mm dm : List (String × Nat)) (now : Nat) :
    List (String × Nat) × List (String × Nat) :=
  (runW (fun _ v => v)
     ((model_master_keys hist facility target_date).map (fun k => (k, now))) mm,
   runW (fun _ v => v)
     ((defect_master_keys insp facility target_date).map (fun k => (k, now))) dm)

/-- The model_layout_master upsert of update_model_layout_link: a catalog
row is (ref_panels, updated_at) keyed by model_code, and ON CONFLICT DO
UPDATE SET ref_panels = EXCLUDED.ref_panels, updated_at = now() replaces
both. -/
def update_model_layout_link (pns : List PartNoRow) (pms : List PnlMapRow)
    (lm : List (String × (List String × Nat))) (now : Nat) :
    List (String × (List String × Nat)) :=
  runW (fun _ v => v)
    ((model_layout_pairs pns pms).map (fun p => (p.1, (p.2, now)))) lm

/-- Content of a catalog with the updated_at timestamps projected away
(proj keeps the columns the idempotence claims compare). -/
def contentA {beta gamma : Type} (proj : beta → gamma)
    (t : List (String × beta)) : List (String × gamma) :=
  t.map (fun p => (p.1, proj p.2))


/-! ## Concrete rows used to evaluate the claims -/

/-- A history row of facility F1 whose move-in day is 2024-03-05. -/
def c1hist : HistRow :=
  { product_id := "P1", model_code := "M1", lot_id := "LOT1",
    move_in_ymdhms := "2024-03-05 09:00:00", process_code := "PC",
    equipment_line_id := "L1", equipment_machine_id := "MA",
    equipment_path_id := "PA", facility_code := "F1" }

/-- An inspection row of facility F1 on 2024-03-05 with one parsed defect. -/
def c1insp : InspRow :=
  { product_id := "PXM10001", defect_name := some "D1", panel_addr := some "A1",
    inspection_end_ymdhms := "2024-03-05 10:00:00", facility_code := "F1" }

/-- An inspection row used for the accumulation scenario. -/
def c2insp : InspRow :=
  { product_id := "PXM10001", defect_name := some "D1", panel_addr := some "A1",
    inspection_end_ymdhms := "2024-03-05 10:00:00", facility_code := "F1" }

/-- A matching history row for the accumulation scenario. -/
def c2hist : HistRow :=
  { product_id := "PXM10001", model_code := "M1", lot_id := "LOT9",
    move_in_ymdhms := "2024-03-05 08:00:00", process_code := "PC",
    equipment_line_id := "L1", equipment_machine_id := "MA",
    equipment_path_id := "PA", facility_code := "F1" }

/-- An existing glass_stats row, with work_time of January first. -/
def c2old : StatRow :=
  { model_code := "M", lot_id := some "L", work_time := some "2024-01-01 00:00:00",
    inspection_time := "2024-01-01 10:00:00", process_code := some "PC",
    equipment_line_id := some "L1", equipment_machine_id := some "MA",
    equipment_path_id := some "PA", total_defects := 1, panel_map := [1],
    panel_addrs := ["A1"], created_at := "2024-01-02 03:00:00" }

/-- A conflicting new glass_stats row, with work_time of January second. -/
def c2new : StatRow :=
  { model_code := "M2", lot_id := some "L2", work_time := some "2024-01-02 00:00:00",
    inspection_time := "2024-01-02 10:00:00", process_code := some "PC2",
    equipment_line_id := some "L12", equipment_machine_id := some "MA2",
    equipment_path_id := some "PA2", total_defects := 3, panel_map := [2],
    panel_addrs := ["B2"], created_at := "2024-01-03 03:00:00" }

/-- An inspection row of facility F1 on the analysis day 2024-03-05. -/
def c5insp : InspRow :=
  { product_id := "PXM10001", defect_name := some "D1", panel_addr := some "A1",
    inspection_end_ymdhms := "2024-03-05 10:00:00", facility_code := "F1" }

/-- A history row of facility F1 whose move-in day 2024-02-01 is NOT the
analysis day. -/
def c5hist : HistRow :=
  { product_id := "PXM10001", model_code := "M1", lot_id := "LOT9",
    move_in_ymdhms := "2024-02-01 08:00:00", process_code := "PC",
    equipment_line_id := "L1", equipment_machine_id := "MA",
    equipment_path_id := "PA", facility_code := "F1" }

/-- A history row of facility F1 on a day other than 2024-03-05, for the
date-filter statement about the history-ingestion analysis query. -/
def c5off : HistRow :=
  { product_id := "P2", model_code := "M1", lot_id := "LOT2",
    move_in_ymdhms := "2024-03-04 08:00:00", process_code := "PC",
    equipment_line_id := "L1", equipment_machine_id := "MA",
    equipment_path_id := "PA", facility_code := "F1" }

/-- A history row of facility F1 on 2024-03-05 for the full-grid shape
statement. -/
def c9hist : HistRow :=
  { product_id := "P1", model_code := "M1", lot_id := "LOT1",
    move_in_ymdhms := "2024-03-05 09:00:00", process_code := "PC",
    equipment_line_id := "L1", equipment_machine_id := "MA",
    equipment_path_id := "PA", facility_code := "F1" }

/-- The glass_stats row the history-driven analysis emits for c9hist when
no inspection row matches: an all-zero 260-cell map and empty address
list. -/
def c9row : StatRow9 :=
  { product_id := "P1", lot_id := "LOT1", product_model_code := "M1",
    work_date := "2024-03-05", total_defects := 0,
    panel_map := List.replicate 260 0, panel_addrs := [], created_at := "T" }

/-! ## General lemmas about the helpers -/

theorem dedupFirst_go_mem {α : Type} [DecidableEq α] (l : List α) (acc : List α) (a : α) :
    a ∈ l.foldl (fun acc x => if x ∈ acc then acc else acc ++ [x]) acc ↔
      a ∈ acc ∨ a ∈ l := by
  induction l generalizing acc with
  | nil => simp
  | cons x xs ih =>
    simp only [List.foldl_cons]
    rw [ih]
    by_cases hx : x ∈ acc
    · simp only [hx, if_true, List.mem_cons]
      constructor
      · rintro (h | h)
        · exact Or.inl h
        · exact Or.inr (Or.inr h)
      · rintro (h | h | h)
        · exact Or.inl h
        · exact Or.inl (h ▸ hx)
        · exact Or.inr h
    · simp only [hx, if_false, List.mem_append, List.mem_singleton, List.mem_cons]
      tauto

theorem mem_dedupFirst {α : Type} [DecidableEq α] (l : List α) (a : α) :
    a ∈ dedupFirst l ↔ a ∈ l := by
  unfold dedupFirst
  rw [dedupFirst_go_mem]
  simp

theorem dedupFirst_go_nodup {α : Type} [DecidableEq α] (l : List α) (acc : List α)
    (hacc : acc.Nodup) :
    (l.foldl (fun acc x => if x ∈ acc then acc else acc ++ [x]) acc).Nodup := by
  induction l generalizing acc with
  | nil => simpa
  | cons x xs ih =>
    simp only [List.foldl_cons]
    by_cases hx : x ∈ acc
    · simpa [hx] using ih acc hacc
    · refine ih _ ?_
      simp only [hx, if_false]
      refine List.Nodup.append hacc (List.nodup_singleton x) ?_
      intro a ha hax
      rw [List.mem_singleton] at hax
      exact hx (hax ▸ ha)

theorem nodup_dedupFirst {α : Type} [DecidableEq α] (l : List α) :
    (dedupFirst l).Nodup :=
  dedupFirst_go_nodup l [] List.nodup_nil

theorem mem_insertSorted {α : Type} (le : α → α → Bool) (x a : α) (l : List α) :
    a ∈ insertSorted le x l ↔ a = x ∨ a ∈ l := by
  induction l with
  | nil => simp [insertSorted]
  | cons y ys ih =>
    simp only [insertSorted]
    cases h : le x y
    · simp only [Bool.false_eq_true, if_false, List.mem_cons, ih]
      tauto
    · simp [List.mem_cons]

theorem mem_sortBy {α : Type} (le : α → α → Bool) (a : α) (l : List α) :
    a ∈ sortBy le l ↔ a ∈ l := by
  induction l with
  | nil => simp [sortBy]
  | cons x xs ih => simp [sortBy, mem_insertSorted, ih]

theorem mapExcept_ok_mem {α β ε : Type} (f : α → Except ε β) (l : List α)
    (ys : List β) (h : mapExcept f l = Except.ok ys) (y : β) (hy : y ∈ ys) :
    ∃ x, x ∈ l ∧ f x = Except.ok y := by
  induction l generalizing ys with
  | nil =>
    simp only [mapExcept, Except.ok.injEq] at h
    subst h
    simp at hy
  | cons x xs ih =>
    simp only [mapExcept] at h
    cases hfx : f x with
    | error e => rw [hfx] at h; exact absurd h (by simp)
    | ok y0 =>
      rw [hfx] at h
      cases hrest : mapExcept f xs with
      | error e => rw [hrest] at h; exact absurd h (by simp)
      | ok ys0 =>
        rw [hrest] at h
        simp only [Except.ok.injEq] at h
        subst h
        rcases List.mem_cons.mp hy with rfl | hmem
        · exact ⟨x, List.mem_cons_self x xs, hfx⟩
        · obtain ⟨x1, hx1, hfx1⟩ := ih ys0 hrest hmem
          exact ⟨x1, List.mem_cons_of_mem x hx1, hfx1⟩

/-! ## General lemmas about keyed upserts -/

theorem anyKey_iff {κ β : Type} [DecidableEq κ] (t : List (κ × β)) (k : κ) :
    (t.any (fun p => decide (p.1 = k))) = true ↔ k ∈ t.map Prod.fst := by
  simp only [List.any_eq_true, decide_eq_true_eq, List.mem_map]

theorem lookupW_map_upd {κ β : Type} [DecidableEq κ] (m : β → β → β)
    (t : List (κ × β)) (k : κ) (v : β) :
    lookupW (t.map (fun p => if p.1 = k then (p.1, m p.2 v) else p)) k =
      (lookupW t k).map (fun o => m o v) := by
  induction t with
  | nil => simp [lookupW]
  | cons p rest ih =>
    by_cases hp : p.1 = k
    · simp [lookupW, List.find?, hp]
    · simp only [List.map_cons, hp, if_false]
      simp only [lookupW, List.find?] at ih ⊢
      rw [show (decide (p.1 = k)) = false by simpa using hp]
      exact ih

theorem lookupW_map_upd_other {κ β : Type} [DecidableEq κ] (m : β → β → β)
    (t : List (κ × β)) (k k1 : κ) (v : β) (hk : k1 ≠ k) :
    lookupW (t.map (fun p => if p.1 = k then (p.1, m p.2 v) else p)) k1 =
      lookupW t k1 := by
  induction t with
  | nil => simp [lookupW]
  | cons p rest ih =>
    by_cases hp : p.1 = k
    · have hp1 : (decide (p.1 = k1)) = false := by
        simp only [decide_eq_false_iff_not]
        exact fun h => hk (h.symm.trans hp)
      rw [List.map_cons, if_pos hp]
      simp only [lookupW, List.find?, hp1] at ih ⊢
      exact ih
    · rw [List.map_cons, if_neg hp]
      by_cases hp1 : p.1 = k1
      · simp [lookupW, List.find?, hp1]
      · simp only [lookupW, List.find?,
          show (decide (p.1 = k1)) = false by simpa using hp1] at ih ⊢
        exact ih

theorem lookupW_append_one {κ β : Type} [DecidableEq κ] (t : List (κ × β))
    (k k1 : κ) (v : β) :
    lookupW (t ++ [(k, v)]) k1 =
      ((lookupW t k1).elim (if k = k1 then some v else none) some) := by
  induction t with
  | nil =>
    by_cases hk : k = k1 <;> simp [lookupW, List.find?, hk]
  | cons p rest ih =>
    by_cases hp : p.1 = k1
    · simp [lookupW, List.find?, hp]
    · simp only [List.cons_append]
      simp only [lookupW, List.find?,
        show (decide (p.1 = k1)) = false by simpa using hp] at ih ⊢
      exact ih

theorem lookupW_eq_none_of_not_mem {κ β : Type} [DecidableEq κ]
    (t : List (κ × β)) (k : κ) (h : k ∉ t.map Prod.fst) : lookupW t k = none := by
  induction t with
  | nil => rfl
  | cons p rest ih =>
    simp only [List.map_cons, List.mem_cons] at h
    push_neg at h
    simp only [lookupW, List.find?,
      show (decide (p.1 = k)) = false by simpa using fun hh => h.1 hh.symm]
    exact ih h.2

theorem lookupW_isSome_of_mem {κ β : Type} [DecidableEq κ]
    (t : List (κ × β)) (k : κ) (h : k ∈ t.map Prod.fst) :
    ∃ o, lookupW t k = some o := by
  cases ho : lookupW t k with
  | some o => exact ⟨o, rfl⟩
  | none =>
    exfalso
    induction t with
    | nil => simp at h
    | cons p rest ih =>
      simp only [List.map_cons, List.mem_cons] at h
      by_cases hp : p.1 = k
      · simp [lookupW, List.find?, hp] at ho
      · simp only [lookupW, List.find?,
          show (decide (p.1 = k)) = false by simpa using hp] at ho
        rcases h with h | h
        · exact hp h.symm
        · exact ih h ho

theorem lookupW_upsertW_self {κ β : Type} [DecidableEq κ] (m : β → β → β)
    (t : List (κ × β)) (k : κ) (v : β) :
    lookupW (upsertW m t k v) k =
      some ((lookupW t k).elim v (fun o => m o v)) := by
  unfold upsertW
  cases hany : (t.any (fun p => decide (p.1 = k))) with
  | true =>
    rw [if_pos rfl]
    obtain ⟨o, ho⟩ := lookupW_isSome_of_mem t k ((anyKey_iff t k).mp hany)
    rw [lookupW_map_upd, ho]
    rfl
  | false =>
    rw [if_neg (by simp)]
    have hnone : lookupW t k = none :=
      lookupW_eq_none_of_not_mem t k (fun hmem => by
        rw [(anyKey_iff t k).mpr hmem] at hany
        exact absurd hany (by decide))
    rw [lookupW_append_one, hnone]
    simp

theorem lookupW_upsertW_other {κ β : Type} [DecidableEq κ] (m : β → β → β)
    (t : List (κ × β)) (k k1 : κ) (v : β) (hk : k1 ≠ k) :
    lookupW (upsertW m t k v) k1 = lookupW t k1 := by
  unfold upsertW
  cases hany : (t.any (fun p => decide (p.1 = k))) with
  | true =>
    rw [if_pos rfl]
    exact lookupW_map_upd_other m t k k1 v hk
  | false =>
    rw [if_neg (by simp)]
    rw [lookupW_append_one, if_neg (fun h => hk h.symm)]
    cases lookupW t k1 <;> rfl

theorem keys_upsertW {κ β : Type} [DecidableEq κ] (m : β → β → β)
    (t : List (κ × β)) (k : κ) (v : β) :
    ((upsertW m t k v).map Prod.fst = t.map Prod.fst ∧ k ∈ t.map Prod.fst) ∨
      ((upsertW m t k v).map Prod.fst = t.map Prod.fst ++ [k] ∧
        k ∉ t.map Prod.fst) := by
  unfold upsertW
  cases hany : (t.any (fun p => decide (p.1 = k))) with
  | true =>
    rw [if_pos rfl]
    refine Or.inl ⟨?_, (anyKey_iff t k).mp hany⟩
    rw [List.map_map]
    refine List.map_congr_left (fun p _ => ?_)
    by_cases hp : p.1 = k
    · rw [Function.comp_apply, if_pos hp]
    · rw [Function.comp_apply, if_neg hp]
  | false =>
    rw [if_neg (by simp)]
    refine Or.inr ⟨by simp, fun hmem => ?_⟩
    rw [(anyKey_iff t k).mpr hmem] at hany
    exact absurd hany (by decide)

theorem mem_keys_upsertW_self {κ β : Type} [DecidableEq κ] (m : β → β → β)
    (t : List (κ × β)) (k : κ) (v : β) :
    k ∈ (upsertW m t k v).map Prod.fst := by
  rcases keys_upsertW m t k v with ⟨heq, hmem⟩ | ⟨heq, _⟩
  · rw [heq]; exact hmem
  · rw [heq]; simp

theorem mem_keys_upsertW_mono {κ β : Type} [DecidableEq κ] (m : β → β → β)
    (t : List (κ × β)) (k k1 : κ) (v : β) (h : k1 ∈ t.map Prod.fst) :
    k1 ∈ (upsertW m t k v).map Prod.fst := by
  rcases keys_upsertW m t k v with ⟨heq, _⟩ | ⟨heq, _⟩
  · rw [heq]; exact h
  · rw [heq]; exact List.mem_append_left _ h

theorem mem_keys_runW_mono {κ β : Type} [DecidableEq κ] (m : β → β → β)
    (kvs : List (κ × β)) (t : List (κ × β)) (k : κ) (h : k ∈ t.map Prod.fst) :
    k ∈ (runW m kvs t).map Prod.fst := by
  induction kvs generalizing t with
  | nil => exact h
  | cons p rest ih =>
    exact ih _ (mem_keys_upsertW_mono m t p.1 k p.2 h)

theorem mem_keys_runW_batch {κ β : Type} [DecidableEq κ] (m : β → β → β)
    (kvs : List (κ × β)) (t : List (κ × β)) (k : κ) (h : k ∈ kvs.map Prod.fst) :
    k ∈ (runW m kvs t).map Prod.fst := by
  induction kvs generalizing t with
  | nil => simp at h
  | cons p rest ih =>
    rw [List.map_cons, List.mem_cons] at h
    rcases h with heq | h
    · rw [heq]
      exact mem_keys_runW_mono m rest _ p.1 (mem_keys_upsertW_self m t p.1 p.2)
    · exact ih _ h

theorem lookupW_runW_notin {κ β : Type} [DecidableEq κ] (m : β → β → β)
    (kvs : List (κ × β)) (t : List (κ × β)) (k : κ) (h : k ∉ kvs.map Prod.fst) :
    lookupW (runW m kvs t) k = lookupW t k := by
  induction kvs generalizing t with
  | nil => rfl
  | cons p rest ih =>
    rw [List.map_cons, List.mem_cons] at h
    push_neg at h
    show lookupW (runW m rest (upsertW m t p.1 p.2)) k = lookupW t k
    rw [ih _ h.2, lookupW_upsertW_other m t p.1 k p.2 h.1]

/-! ## Lemmas about replacing upserts (master catalogs) -/

theorem val_upsertW_replace {κ β : Type} [DecidableEq κ]
    (t : List (κ × β)) (k : κ) (v : β) (q : κ × β)
    (hq : q ∈ upsertW (fun _ w => w) t k v) (hqk : q.1 = k) : q.2 = v := by
  unfold upsertW at hq
  cases hany : (t.any (fun p => decide (p.1 = k))) with
  | true =>
    rw [hany, if_pos rfl] at hq
    obtain ⟨q0, _, hq0⟩ := List.mem_map.mp hq
    by_cases hp : q0.1 = k
    · rw [if_pos hp] at hq0
      rw [hq0.symm]
    · rw [if_neg hp] at hq0
      exact absurd (hq0 ▸ hqk) hp
  | false =>
    rw [hany, if_neg (by simp)] at hq
    rcases List.mem_append.mp hq with hq | hq
    · have := List.any_eq_false.mp hany q hq
      simp only [decide_eq_true_eq] at this
      exact absurd hqk this
    · rw [List.mem_singleton] at hq
      rw [hq]

theorem val_upsertW_preserve {κ β : Type} [DecidableEq κ] (m : β → β → β)
    (t : List (κ × β)) (k k1 : κ) (v v1 : β) (hk : k ≠ k1)
    (hall : ∀ q ∈ t, q.1 = k → q.2 = v) (q : κ × β)
    (hq : q ∈ upsertW m t k1 v1) (hqk : q.1 = k) : q.2 = v := by
  unfold upsertW at hq
  cases hany : (t.any (fun p => decide (p.1 = k1))) with
  | true =>
    rw [hany, if_pos rfl] at hq
    obtain ⟨q0, hq0mem, hq0⟩ := List.mem_map.mp hq
    by_cases hp : q0.1 = k1
    · rw [if_pos hp] at hq0
      have hqk1 : q.1 = k1 := by rw [← hq0]; exact hp
      exact absurd (hqk.symm.trans hqk1) hk
    · rw [if_neg hp] at hq0
      exact hall q (hq0 ▸ hq0mem) hqk
  | false =>
    rw [hany, if_neg (by simp)] at hq
    rcases List.mem_append.mp hq with hq | hq
    · exact hall q hq hqk
    · rw [List.mem_singleton] at hq
      rw [hq] at hqk
      exact absurd hqk (Ne.symm hk)

theorem val_runW_preserve {κ β : Type} [DecidableEq κ] (m : β → β → β)
    (kvs : List (κ × β)) (t : List (κ × β)) (k : κ) (v : β)
    (hnot : k ∉ kvs.map Prod.fst)
    (hall : ∀ q ∈ t, q.1 = k → q.2 = v) (q : κ × β)
    (hq : q ∈ runW m kvs t) (hqk : q.1 = k) : q.2 = v := by
  induction kvs generalizing t with
  | nil => exact hall q hq hqk
  | cons p rest ih =>
    rw [List.map_cons, List.mem_cons] at hnot
    push_neg at hnot
    exact ih _ hnot.2
      (fun q1 hq1 hq1k => val_upsertW_preserve m t k p.1 v p.2
        hnot.1 hall q1 hq1 hq1k) hq

theorem val_runW_replace {κ β : Type} [DecidableEq κ]
    (kvs : List (κ × β)) (t : List (κ × β)) (k : κ) (v : β)
    (hnd : (kvs.map Prod.fst).Nodup) (hkv : (k, v) ∈ kvs) (q : κ × β)
    (hq : q ∈ runW (fun _ w => w) kvs t) (hqk : q.1 = k) : q.2 = v := by
  induction kvs generalizing t with
  | nil => simp at hkv
  | cons p rest ih =>
    rw [List.map_cons] at hnd
    have hnd1 := List.nodup_cons.mp hnd
    rcases List.mem_cons.mp hkv with heq | hmem
    · have hp1 : p.1 = k := by rw [← heq]
      have hp2 : p.2 = v := by rw [← heq]
      refine val_runW_preserve _ rest _ k v (hp1 ▸ hnd1.1) ?_ q hq hqk
      intro q1 hq1 hq1k
      rw [hp2.symm]
      exact val_upsertW_replace t p.1 p.2 q1 hq1 (hp1 ▸ hq1k)
    · exact ih _ hnd1.2 hmem hq

/-! ## Content of a catalog up to timestamps -/

theorem contentA_fst {beta gamma : Type} (proj : beta → gamma)
    (t : List (String × beta)) :
    (contentA proj t).map Prod.fst = t.map Prod.fst := by
  unfold contentA
  rw [List.map_map]
  rfl

theorem contentA_upsertW_hit {beta gamma : Type} (proj : beta → gamma)
    (t : List (String × beta)) (k : String) (v : beta)
    (hmem : k ∈ t.map Prod.fst)
    (hproj : ∀ q ∈ t, q.1 = k → proj q.2 = proj v) :
    contentA proj (upsertW (fun _ w => w) t k v) = contentA proj t := by
  unfold upsertW
  rw [(anyKey_iff t k).mpr hmem, if_pos rfl]
  unfold contentA
  rw [List.map_map]
  refine List.map_congr_left (fun p hp => ?_)
  by_cases hpk : p.1 = k
  · rw [Function.comp_apply, if_pos hpk]
    exact Prod.ext rfl (hproj p hp hpk).symm
  · rw [Function.comp_apply, if_neg hpk]

theorem contentA_runW_noop {beta gamma : Type} (proj : beta → gamma)
    (kvs : List (String × beta)) (t : List (String × beta))
    (hnd : (kvs.map Prod.fst).Nodup)
    (hmem : ∀ p ∈ kvs, p.1 ∈ t.map Prod.fst)
    (hproj : ∀ p ∈ kvs, ∀ q ∈ t, q.1 = p.1 → proj q.2 = proj p.2) :
    contentA proj (runW (fun _ w => w) kvs t) = contentA proj t := by
  induction kvs generalizing t with
  | nil => rfl
  | cons p rest ih =>
    rw [List.map_cons] at hnd
    have hnd1 := List.nodup_cons.mp hnd
    have hpmem : p.1 ∈ t.map Prod.fst := hmem p (List.mem_cons_self p rest)
    have hstep : contentA proj (upsertW (fun _ w => w) t p.1 p.2) = contentA proj t :=
      contentA_upsertW_hit proj t p.1 p.2 hpmem
        (fun q hq hqk => hproj p (List.mem_cons_self p rest) q hq hqk)
    show contentA proj (runW (fun _ w => w) rest (upsertW (fun _ w => w) t p.1 p.2)) =
      contentA proj t
    rw [ih _ hnd1.2 ?memrest ?projrest, hstep]
    case memrest =>
      intro p1 hp1
      have : (contentA proj (upsertW (fun _ w => w) t p.1 p.2)).map Prod.fst =
          (contentA proj t).map Prod.fst := by rw [hstep]
      rw [contentA_fst, contentA_fst] at this
      rw [this]
      exact hmem p1 (List.mem_cons_of_mem p hp1)
    case projrest =>
      intro p1 hp1 q hq hqk
      unfold upsertW at hq
      rw [(anyKey_iff t p.1).mpr hpmem, if_pos rfl] at hq
      obtain ⟨q0, hq0mem, hq0⟩ := List.mem_map.mp hq
      by_cases hq0k : q0.1 = p.1
      · rw [if_pos hq0k] at hq0
        exfalso
        have hq1p : q.1 = p.1 := by rw [← hq0]; exact hq0k
        have : p.1 ∈ rest.map Prod.fst :=
          (hq1p ▸ hqk) ▸ List.mem_map.mpr ⟨p1, hp1, rfl⟩
        exact hnd1.1 this
      · rw [if_neg hq0k] at hq0
        exact hproj p1 (List.mem_cons_of_mem p hp1) q (hq0 ▸ hq0mem) hqk

/-! ## Accumulation of total_defects across upserts -/

/-- The total_defects stored at a key. -/
def totalOf (tbl : List (StatKey × StatRow)) (k : StatKey) : Option Nat :=
  (lookupStat tbl k).map (fun r => r.total_defects)

/-- Sum of the total_defects of the batch rows targeting a key. -/
def batchTotal (batch : List (StatKey × StatRow)) (k : StatKey) : Nat :=
  ((batch.filter (fun p => decide (p.1 = k))).map (fun p => p.2.total_defects)).sum

theorem totalOf_upsertStat_self (t : List (StatKey × StatRow)) (k : StatKey)
    (v : StatRow) :
    totalOf (upsertStat t k v) k =
      some ((totalOf t k).getD 0 + v.total_defects) := by
  unfold totalOf upsertStat lookupStat
  rw [lookupW_upsertW_self]
  cases lookupW t k with
  | none => simp
  | some o => simp [applyConflict]

theorem totalOf_upsertStat_other (t : List (StatKey × StatRow)) (k k1 : StatKey)
    (v : StatRow) (hk : k1 ≠ k) :
    totalOf (upsertStat t k v) k1 = totalOf t k1 := by
  unfold totalOf upsertStat lookupStat
  rw [lookupW_upsertW_other _ _ _ _ _ hk]

theorem totalOf_runW (batch : List (StatKey × StatRow))
    (t : List (StatKey × StatRow)) (k : StatKey)
    (h : (totalOf t k).isSome = true ∨ k ∈ batch.map Prod.fst) :
    totalOf (runW applyConflict batch t) k =
      some ((totalOf t k).getD 0 + batchTotal batch k) := by
  induction batch generalizing t with
  | nil =>
    rcases h with h | h
    · cases ht : totalOf t k with
      | none => rw [ht] at h; simp at h
      | some n => simp [runW, batchTotal, ht]
    · simp at h
  | cons p rest ih =>
    show totalOf (runW applyConflict rest (upsertStat t p.1 p.2)) k = _
    by_cases hp : p.1 = k
    · have hstep : totalOf (upsertStat t p.1 p.2) k =
          some ((totalOf t k).getD 0 + p.2.total_defects) := by
        rw [hp]; exact totalOf_upsertStat_self t k p.2
      rw [ih _ (Or.inl (by rw [hstep]; rfl)), hstep]
      have hbt : batchTotal (p :: rest) k = p.2.total_defects + batchTotal rest k := by
        unfold batchTotal
        rw [List.filter_cons, if_pos (by simpa using hp)]
        simp
      rw [hbt]
      simp [Nat.add_assoc]
    · have hstep : totalOf (upsertStat t p.1 p.2) k = totalOf t k :=
        totalOf_upsertStat_other t p.1 k p.2 (fun hh => hp hh.symm)
      have hbt : batchTotal (p :: rest) k = batchTotal rest k := by
        unfold batchTotal
        rw [List.filter_cons, if_neg (by simpa using hp)]
      have hrest : (totalOf (upsertStat t p.1 p.2) k).isSome = true ∨
          k ∈ rest.map Prod.fst := by
        rcases h with h | h
        · exact Or.inl (by rw [hstep]; exact h)
        · rw [List.map_cons, List.mem_cons] at h
          rcases h with h | h
          · exact absurd h.symm hp
          · exact Or.inr h
      rw [ih _ hrest, hstep, hbt]

/-! ## Membership chains through the aggregation query -/

theorem mem_target_inspection (insp : List InspRow) (facility target_date : String)
    (r : InspRow) (dn : String) (hr : r ∈ insp) (hfac : r.facility_code = facility)
    (hday : tsDay r.inspection_end_ymdhms = target_date) (hdn : r.defect_name = some dn) :
    ({ product_id := r.product_id, defect_name := dn,
       model_code := substr_3_2 r.product_id, panel_addr := r.panel_addr,
       inspection_end_ymdhms := r.inspection_end_ymdhms } : TIRow) ∈
      target_inspection insp facility target_date := by
  unfold target_inspection
  refine List.mem_filterMap.mpr ⟨r, hr, ?_⟩
  rw [if_pos ⟨hfac, hday⟩, hdn]
  rfl

theorem mem_inner_stats (ti : List TIRow) (t : TIRow) (a : String)
    (ht : t ∈ ti) (ha : t.panel_addr = some a) :
    ∃ s ∈ inner_stats ti, s.product_id = t.product_id ∧
      s.defect_name = t.defect_name ∧ s.model_code = t.model_code := by
  simp only [inner_stats]
  have hrow : (t, a) ∈ ti.filterMap (fun r => r.panel_addr.map (fun a => (r, a))) :=
    List.mem_filterMap.mpr ⟨t, ht, by rw [ha]; rfl⟩
  have hkey : (t.product_id, t.defect_name, t.model_code, a) ∈
      dedupFirst ((ti.filterMap (fun r => r.panel_addr.map (fun a => (r, a)))).map
        (fun p => (p.1.product_id, p.1.defect_name, p.1.model_code, p.2))) :=
    (mem_dedupFirst _ _).mpr (List.mem_map.mpr ⟨(t, a), hrow, rfl⟩)
  exact ⟨_, List.mem_map.mpr ⟨_, hkey, rfl⟩, rfl, rfl, rfl⟩

theorem mem_grouped_defects (ti : List TIRow) (t : TIRow) (a : String)
    (ht : t ∈ ti) (ha : t.panel_addr = some a) :
    ∃ d ∈ grouped_defects ti, d.product_id = t.product_id ∧
      d.defect_name = t.defect_name := by
  obtain ⟨s, hs, hs1, hs2, hs3⟩ := mem_inner_stats ti t a ht ha
  simp only [grouped_defects]
  have hkey : (s.product_id, s.defect_name, s.model_code) ∈
      dedupFirst ((inner_stats ti).map (fun r => (r.product_id, r.defect_name, r.model_code))) :=
    (mem_dedupFirst _ _).mpr (List.mem_map.mpr ⟨s, hs, rfl⟩)
  exact ⟨_, List.mem_map.mpr ⟨_, hkey, rfl⟩, hs1, hs2⟩

theorem joinRows_key (target_history : List HistRow) (now : String)
    (d : GroupedDefect) (x : StatKey × StatRow) (hx : x ∈ joinRows target_history now d) :
    x.1 = (d.product_id, d.defect_name) := by
  unfold joinRows at hx
  cases hms : target_history.filter (fun h => decide (h.product_id = d.product_id)) with
  | nil =>
    rw [hms] at hx
    rw [List.mem_singleton.mp hx]
  | cons h0 hrest =>
    rw [hms] at hx
    obtain ⟨h1, _, hh⟩ := List.mem_map.mp hx
    rw [← hh]

theorem joinRows_exists (target_history : List HistRow) (now : String)
    (d : GroupedDefect) : ∃ x, x ∈ joinRows target_history now d := by
  unfold joinRows
  cases hms : target_history.filter (fun h => decide (h.product_id = d.product_id)) with
  | nil => exact ⟨_, List.mem_singleton.mpr rfl⟩
  | cons h0 hrest => exact ⟨_, List.mem_map.mpr ⟨h0, List.mem_cons_self h0 hrest, rfl⟩⟩

theorem mem_analysisRows_key (insp : List InspRow) (hist : List HistRow)
    (facility target_date now : String) (d : GroupedDefect)
    (hd : d ∈ grouped_defects (target_inspection insp facility target_date)) :
    (d.product_id, d.defect_name) ∈
      (analysisRows insp hist facility target_date now).map Prod.fst := by
  unfold analysisRows
  obtain ⟨x, hx⟩ := joinRows_exists
    (hist.filter (fun h => decide (h.facility_code = facility))) now d
  refine List.mem_map.mpr ⟨x, ?_, joinRows_key _ _ _ _ hx⟩
  exact (mem_sortBy _ x _).mpr (List.mem_flatMap.mpr ⟨d, hd, hx⟩)

theorem glass_defects_pid (insp : List InspRow) (gds : List GDRow)
    (h : glass_defects insp = Except.ok gds) (g : GDRow) (hg : g ∈ gds) :
    ∃ r, r ∈ insp ∧ ∃ a, r.panel_addr = some a ∧ r.product_id = g.product_id := by
  simp only [glass_defects] at h
  obtain ⟨pid, hpid, hf⟩ := mapExcept_ok_mem _ _ _ h g hg
  have hgp : g.product_id = pid := by
    cases hix : mapExcept (fun a => panelAddrIndex (some a))
        (((insp.filterMap (fun r => r.panel_addr.map (fun a => (r.product_id, a)))).filter
          (fun p => decide (p.1 = pid))).map (fun p => p.2)) with
    | error e =>
      rw [hix] at hf
      simp only [Except.map] at hf
      exact absurd hf (by intro hh; cases hh)
    | ok idxs =>
      rw [hix] at hf
      simp only [Except.map, Except.ok.injEq] at hf
      rw [← hf]
  have hpid2 := (mem_dedupFirst _ _).mp hpid
  obtain ⟨p, hpmem, hp⟩ := List.mem_map.mp hpid2
  obtain ⟨r, hrmem, hr⟩ := List.mem_filterMap.mp hpmem
  cases hpa : r.panel_addr with
  | none =>
    rw [hpa] at hr
    exact absurd hr (by intro hh; cases hh)
  | some a =>
    rw [hpa] at hr
    have hr2 : (r.product_id, a) = p := by
      have : some (r.product_id, a) = some p := hr
      exact Option.some.inj this
    refine ⟨r, hrmem, a, hpa, ?_⟩
    rw [hgp, ← hp, ← hr2]

/-! ## Claim theorems -/

/-- C10: for every input value, the inspection preprocessing defect-name
parser returns None when the value is not a string or splits on a dash into
fewer than four parts, and otherwise returns the second and fourth
dash-separated parts, whitespace-stripped and joined by a dash; being a
total Lean function it never raises. -/
theorem c10_defect_name_parsing : ∀ v : PyVal, parse_defect_name v = parseDefectNameSpec v := by
  intro v
  cases v with
  | nonStr => rfl
  | str s =>
    simp only [parse_defect_name, parseDefectNameSpec]
    by_cases h : 4 ≤ (pySplitDash s).length
    · rw [if_pos h, if_neg (by omega)]
    · rw [if_neg h, if_pos (by omega)]

/-- Helper: the two-digit zero padding of a number below 100 has length two,
consists of digits, and decodes back to the number. -/
theorem pad2_spec : ∀ n, n < 100 →
    (pad2 n).length = 2 ∧ (∀ c ∈ (pad2 n).data, c.isDigit = true) ∧
      bucketVal (pad2 n) = n := by decide

/-- C8: for string identifiers the assigned bucket is the MD5 hash of the
identifier modulo 100 rendered as a zero-padded two-digit numeral (hence
always two digit characters decoding to a value below 100, the same on
every evaluation since get_bucket is a function), and every non-string
value is assigned the reserved bucket 00; the spec scenario identifier
ABCDE12345 lands in bucket 44. -/
theorem c8_bucket_assignment :
    (∀ s : String,
      get_bucket (PyVal.str s) = pad2 (md5Int (strBytes s) % 100) ∧
      (get_bucket (PyVal.str s)).length = 2 ∧
      (∀ c ∈ (get_bucket (PyVal.str s)).data, c.isDigit = true) ∧
      bucketVal (get_bucket (PyVal.str s)) = md5Int (strBytes s) % 100) ∧
    get_bucket PyVal.nonStr = "00" ∧
    get_bucket (PyVal.str "ABCDE12345") = "44" := by
  refine ⟨fun s => ?_, rfl, by decide⟩
  have hlt : md5Int (strBytes s) % 100 < 100 := Nat.mod_lt _ (by decide)
  have hp := pad2_spec (md5Int (strBytes s) % 100) hlt
  exact ⟨rfl, hp.1, hp.2.1, hp.2.2⟩

/-- C4: evaluating the panel-address CASE expression of the
history-ingestion analysis query: NULL input and a one-character address
are classified as unparseable (NULL) and excluded, but an address whose
second character is not a digit reaches CAST(.. AS INTEGER) and raises a
conversion error that aborts the whole batch query, contradicting the
required total tri-state behaviour. -/
theorem c4_encoder_cast_error :
    panelAddrIndex (some "AX") = Except.error () ∧
    panelAddrIndex none = Except.ok none ∧
    panelAddrIndex (some "A") = Except.ok none := by decide

/-- C3 counterexample: the well-formed address B10 (row ordinal 1, column
number 10) encodes to 12, which is neither 1 * 10 + 10 + 0 = 20 nor
1 * 10 + 10 + 1 = 21, because the encoder reads only the first column
digit; so no constant offset of 0 or 1 satisfies the claimed formula on all
well-formed addresses. -/
theorem c3_counterexample :
    panelAddrIndex (some "B10") = Except.ok (some 12) ∧
    ((12 : Int) ≠ 1 * 10 + 10 + 0) ∧ ((12 : Int) ≠ 1 * 10 + 10 + 1) := by decide

/-- C3 amended: for an address whose first character is a letter between A
and Z and whose second character is a digit, the computed index is
(letter ordinal) * 10 + (first column digit) + 1 - a constant offset of
one, with the column read from the first digit only - and this index always
lies in the range 1..260 of the 260-cell grid; encode of A1 and encode of
B1 differ by exactly ten. -/
theorem c3_amended :
    (∀ (c0 c1 : Char) (rest : List Char), 65 ≤ c0.toNat → c0.toNat ≤ 90 →
      c1.isDigit = true →
      panelAddrIndex (some (String.mk (c0 :: c1 :: rest))) =
        Except.ok (some (((c0.toNat : Int) - 65) * 10 + ((c1.toNat : Int) - 48) + 1)) ∧
      1 ≤ ((c0.toNat : Int) - 65) * 10 + ((c1.toNat : Int) - 48) + 1 ∧
      ((c0.toNat : Int) - 65) * 10 + ((c1.toNat : Int) - 48) + 1 ≤ 260) ∧
    panelAddrIndex (some "A1") = Except.ok (some 2) ∧
    panelAddrIndex (some "B1") = Except.ok (some 12) ∧
    (12 : Int) - 2 = 10 := by
  refine ⟨fun c0 c1 rest h65 h90 hd => ?_, by decide, by decide, by decide⟩
  have hb : 48 ≤ c1.toNat ∧ c1.toNat ≤ 57 := by
    simp only [Char.isDigit, Bool.and_eq_true, decide_eq_true_eq] at hd
    exact hd
  have h65i : (65 : Int) ≤ (c0.toNat : Int) := by exact_mod_cast h65
  have h90i : (c0.toNat : Int) ≤ 90 := by exact_mod_cast h90
  have h48i : (48 : Int) ≤ (c1.toNat : Int) := by exact_mod_cast hb.1
  have h57i : (c1.toNat : Int) ≤ 57 := by exact_mod_cast hb.2
  refine ⟨?_, by omega, by omega⟩
  show (sqlCastInt c1).map
      (fun d => some (((c0.toNat : Int) - 65) * 10 + d + 1)) = _
  rw [show sqlCastInt c1 = Except.ok ((c1.toNat : Int) - 48) from by
    unfold sqlCastInt; rw [if_pos hd]]
  rfl

/-- C3 amended witness: the amended statement evaluated at the address B7. -/
theorem c3_witness :
    panelAddrIndex (some (String.mk ['B', '7'])) = Except.ok (some 18) ∧
    (1 : Int) ≤ 18 ∧ (18 : Int) ≤ 260 := by
  have h := c3_amended.1 'B' '7' [] (by decide) (by decide) (by decide)
  refine ⟨?_, by decide, by decide⟩
  rw [h.1]
  decide

/-- C1 counterexample: a facility F1 history row whose move-in day is the
target day 2024-03-05 together with an empty inspection set produces an
empty glass_stats table: the history product P1 appears in no row and no
designated no-defect sentinel row is inserted, because the final SELECT is
driven by grouped_defects and only left-joins history onto it. -/
theorem c1_counterexample :
    tsDay c1hist.move_in_ymdhms = "2024-03-05" ∧ c1hist.facility_code = "F1" ∧
    runDailyAnalysis [] [c1hist] "F1" "2024-03-05" "2024-03-06 03:00:00" [] = [] := by
  decide

/-- C1 amended: the aggregation is complete in the defect direction - every
inspection row of the facility on the target date carrying a non-NULL
defect_name and a non-NULL panel_addr contributes its
(product_id, defect_name) pair to the keys of the resulting glass_stats
table; products present only in history obtain no row. -/
theorem c1_amended :
    ∀ (insp : List InspRow) (hist : List HistRow)
      (facility target_date now : String) (tbl : List (StatKey × StatRow))
      (r : InspRow) (dn a : String),
    r ∈ insp → r.facility_code = facility →
    tsDay r.inspection_end_ymdhms = target_date →
    r.defect_name = some dn → r.panel_addr = some a →
    (r.product_id, dn) ∈
      (runDailyAnalysis insp hist facility target_date now tbl).map Prod.fst := by
  intro insp hist facility target_date now tbl r dn a hr hfac hday hdn hpa
  have ht := mem_target_inspection insp facility target_date r dn hr hfac hday hdn
  obtain ⟨d, hd, hd1, hd2⟩ :=
    mem_grouped_defects (target_inspection insp facility target_date) _ a ht hpa
  have hd1r : d.product_id = r.product_id := hd1
  have hd2r : d.defect_name = dn := hd2
  have hkey := mem_analysisRows_key insp hist facility target_date now d hd
  rw [hd1r, hd2r] at hkey
  exact mem_keys_runW_batch applyConflict _ tbl _ hkey

/-- C1 amended witness: the amended statement evaluated on one concrete
inspection row of facility F1 on the target day. -/
theorem c1_witness :
    ("PXM10001", "D1") ∈
      (runDailyAnalysis [c1insp] [] "F1" "2024-03-05" "T" []).map Prod.fst := by
  exact c1_amended [c1insp] [] "F1" "2024-03-05" "T" [] c1insp "D1" "A1"
    (List.mem_singleton.mpr rfl) (by decide) (by decide) (by decide) (by decide)

/-- C2 counterexample: upserting a conflicting row does NOT overwrite the
work_time timestamp - the stored row keeps the existing work_time of
January first while the new row carries January second - so the claim that
the descriptive timestamps are all overwritten with the new values fails. -/
theorem c2_counterexample :
    (lookupStat (upsertStat [(("P", "D"), c2old)] ("P", "D") c2new)
      ("P", "D")).map (fun r => r.work_time) = some (some "2024-01-01 00:00:00") ∧
    c2new.work_time = some "2024-01-02 00:00:00" ∧
    ("2024-01-01 00:00:00" : String) ≠ "2024-01-02 00:00:00" := by decide

/-- C2 amended: on a key conflict the upsert overwrites model_code, lot_id,
inspection_time, process_code and the three equipment identifiers with the
new values, refreshes created_at, KEEPS the existing work_time, adds the
new total_defects to the existing one and appends panel_map and panel_addrs
to the existing lists; consequently re-running the exact same day of
aggregation on top of its own output doubles total_defects, in particular
an initial total of one becomes two. -/
theorem c2_amended :
    (∀ (tbl : List (StatKey × StatRow)) (k : StatKey) (new old : StatRow),
      lookupStat tbl k = some old →
      lookupStat (upsertStat tbl k new) k = some
        { model_code := new.model_code, lot_id := new.lot_id,
          work_time := old.work_time, inspection_time := new.inspection_time,
          process_code := new.process_code,
          equipment_line_id := new.equipment_line_id,
          equipment_machine_id := new.equipment_machine_id,
          equipment_path_id := new.equipment_path_id,
          total_defects := old.total_defects + new.total_defects,
          panel_map := old.panel_map ++ new.panel_map,
          panel_addrs := old.panel_addrs ++ new.panel_addrs,
          created_at := new.created_at }) ∧
    (∀ (insp : List InspRow) (hist : List HistRow)
       (facility target_date now : String) (k : StatKey) (n : Nat),
      totalOf (runDailyAnalysis insp hist facility target_date now []) k = some n →
      totalOf (runDailyAnalysis insp hist facility target_date now
        (runDailyAnalysis insp hist facility target_date now [])) k = some (2 * n)) := by
  constructor
  · intro tbl k new old hold
    unfold lookupStat at hold
    unfold lookupStat upsertStat
    rw [lookupW_upsertW_self, hold]
    rfl
  · intro insp hist facility target_date now k n h1
    have hmem : k ∈ (analysisRows insp hist facility target_date now).map Prod.fst := by
      by_contra hnot
      have hnone := lookupW_runW_notin applyConflict
        (analysisRows insp hist facility target_date now) [] k hnot
      unfold runDailyAnalysis totalOf lookupStat at h1
      rw [hnone] at h1
      exact absurd h1 (by intro hh; cases hh)
    have ht1 := totalOf_runW (analysisRows insp hist facility target_date now) [] k
      (Or.inr hmem)
    have hbt : batchTotal (analysisRows insp hist facility target_date now) k = n := by
      unfold runDailyAnalysis at h1
      rw [h1] at ht1
      have : totalOf ([] : List (StatKey × StatRow)) k = none := rfl
      rw [this] at ht1
      simpa using ht1.symm
    have ht2 := totalOf_runW (analysisRows insp hist facility target_date now)
      (runDailyAnalysis insp hist facility target_date now []) k
      (Or.inl (by rw [h1]; rfl))
    unfold runDailyAnalysis at ht2 h1 ⊢
    rw [ht2, h1, hbt]
    simp [Nat.two_mul]

/-- C2 witness: the amended statement at a concrete conflicting upsert and
at the concrete one-inspection-row day rerun, whose total goes from one to
two. -/
theorem c2_witness :
    lookupStat (upsertStat [(("P", "D"), c2old)] ("P", "D") c2new) ("P", "D") =
      some
        { model_code := c2new.model_code, lot_id := c2new.lot_id,
          work_time := c2old.work_time, inspection_time := c2new.inspection_time,
          process_code := c2new.process_code,
          equipment_line_id := c2new.equipment_line_id,
          equipment_machine_id := c2new.equipment_machine_id,
          equipment_path_id := c2new.equipment_path_id,
          total_defects := c2old.total_defects + c2new.total_defects,
          panel_map := c2old.panel_map ++ c2new.panel_map,
          panel_addrs := c2old.panel_addrs ++ c2new.panel_addrs,
          created_at := c2new.created_at } ∧
    totalOf (runDailyAnalysis [c2insp] [c2hist] "F1" "2024-03-05" "T"
      (runDailyAnalysis [c2insp] [c2hist] "F1" "2024-03-05" "T" []))
      ("PXM10001", "D1") = some 2 := by
  constructor
  · exact c2_amended.1 [(("P", "D"), c2old)] ("P", "D") c2new c2old (by decide)
  · have h1 : totalOf (runDailyAnalysis [c2insp] [c2hist] "F1" "2024-03-05" "T" [])
        ("PXM10001", "D1") = some 1 := by decide
    have h2 := c2_amended.2 [c2insp] [c2hist] "F1" "2024-03-05" "T"
      ("PXM10001", "D1") 1 h1
    simpa using h2

/-- C5 counterexample: in the per-day aggregation of run_daily_analysis.py
the target_history CTE filters history by facility only; a facility F1
history row whose move-in day 2024-02-01 is not the target day 2024-03-05
still supplies its lot_id to the glass_stats row of that target day, so
history facts from other days do contribute. -/
theorem c5_counterexample :
    tsDay c5hist.move_in_ymdhms ≠ "2024-03-05" ∧
    (lookupStat (runDailyAnalysis [c5insp] [c5hist] "F1" "2024-03-05" "T" [])
      ("PXM10001", "D1")).map (fun r => r.lot_id) = some (some "LOT9") := by decide

/-- C5 amended: the history-driven analysis query of get_history_data.py
does filter history facts to the target calendar day: a history row whose
move-in day differs from the target day contributes nothing - removing it
from the history input leaves the query result unchanged.  (The
run_daily_analysis.py query instead filters history by facility only; there
the date filter applies to the inspection side.) -/
theorem c5_amended :
    ∀ (insp : List InspRow) (hist1 hist2 : List HistRow) (h0 : HistRow)
      (facility target_day now : String),
    tsDay h0.move_in_ymdhms ≠ target_day →
    historyAnalysis insp (hist1 ++ h0 :: hist2) facility target_day now =
      historyAnalysis insp (hist1 ++ hist2) facility target_day now := by
  intro insp hist1 hist2 h0 facility target_day now hday
  unfold historyAnalysis
  have hfil : ((hist1 ++ h0 :: hist2).filter
        (fun h => decide (h.facility_code = facility))).filter
          (fun h => decide (tsDay h.move_in_ymdhms = target_day)) =
      ((hist1 ++ hist2).filter
        (fun h => decide (h.facility_code = facility))).filter
          (fun h => decide (tsDay h.move_in_ymdhms = target_day)) := by
    simp only [List.filter_append, List.filter_cons]
    by_cases hfac : h0.facility_code = facility
    · simp [hfac, hday]
    · simp [hfac]
  refine congrArg (fun f => Except.map f (glass_defects insp)) ?_
  funext gds
  simp only [hfil]

/-- C5 amended witness: the amended statement evaluated at the concrete
off-day history row c5off. -/
theorem c5_witness :
    historyAnalysis [] ([] ++ c5off :: []) "F1" "2024-03-05" "T" =
      historyAnalysis [] ([] ++ []) "F1" "2024-03-05" "T" :=
  c5_amended [] [] [] c5off "F1" "2024-03-05" "T" (by decide)

/-- Helper: keys of a list tagged with values. -/
theorem keys_map_pairing {α β : Type} (f : α → β) (l : List α) :
    (l.map (fun m => (m, f m))).map Prod.fst = l := by
  induction l with
  | nil => rfl
  | cons x xs ih => simp [ih]

/-- Helper: changing only the values of an association list keeps its keys. -/
theorem keys_map_retime {β γ : Type} (f : β → γ) (l : List (String × β)) :
    (l.map (fun p => (p.1, f p.2))).map Prod.fst = l.map Prod.fst := by
  induction l with
  | nil => rfl
  | cons x xs ih => simp [ih]

/-- Helper: re-running a replacing upsert batch with distinct keys leaves
the key list unchanged (master catalogs). -/
theorem master_run_twice (ks : List String) (hnd : ks.Nodup)
    (t : List (String × Nat)) (n1 n2 : Nat) :
    (runW (fun _ w => w) (ks.map (fun k => (k, n2)))
        (runW (fun _ w => w) (ks.map (fun k => (k, n1))) t)).map Prod.fst =
      (runW (fun _ w => w) (ks.map (fun k => (k, n1))) t).map Prod.fst := by
  have hkeys2 : (ks.map (fun k => (k, n2))).map Prod.fst = ks :=
    keys_map_pairing (fun _ => n2) ks
  have hkeys1 : (ks.map (fun k => (k, n1))).map Prod.fst = ks :=
    keys_map_pairing (fun _ => n1) ks
  have hcont := contentA_runW_noop (fun _ => Unit.unit) (ks.map (fun k => (k, n2)))
    (runW (fun _ w => w) (ks.map (fun k => (k, n1))) t)
    (by rw [hkeys2]; exact hnd)
    (by
      intro p hp
      obtain ⟨k0, hk0, hpk⟩ := List.mem_map.mp hp
      rw [← hpk]
      exact mem_keys_runW_batch (fun _ w => w) _ t k0 (by rw [hkeys1]; exact hk0))
    (fun p hp q hq hqk => rfl)
  calc (runW (fun _ w => w) (ks.map (fun k => (k, n2)))
        (runW (fun _ w => w) (ks.map (fun k => (k, n1))) t)).map Prod.fst
      = (contentA (fun _ => Unit.unit) (runW (fun _ w => w) (ks.map (fun k => (k, n2)))
          (runW (fun _ w => w) (ks.map (fun k => (k, n1))) t))).map Prod.fst :=
        (contentA_fst _ _).symm
    _ = (contentA (fun _ => Unit.unit)
          (runW (fun _ w => w) (ks.map (fun k => (k, n1))) t)).map Prod.fst := by
        rw [hcont]
    _ = (runW (fun _ w => w) (ks.map (fun k => (k, n1))) t).map Prod.fst :=
        contentA_fst _ _

/-- Helper: re-running the layout upsert batch with distinct keys leaves
both the keys and the stored ref_panels unchanged. -/
theorem layout_run_twice (ps : List (String × List String))
    (hnd : (ps.map Prod.fst).Nodup) (t : List (String × (List String × Nat)))
    (n1 n2 : Nat) :
    contentA (fun v => v.1) (runW (fun _ w => w) (ps.map (fun p => (p.1, (p.2, n2))))
        (runW (fun _ w => w) (ps.map (fun p => (p.1, (p.2, n1)))) t)) =
      contentA (fun v => v.1)
        (runW (fun _ w => w) (ps.map (fun p => (p.1, (p.2, n1)))) t) := by
  have hkeys2 : (ps.map (fun p => (p.1, (p.2, n2)))).map Prod.fst = ps.map Prod.fst :=
    keys_map_retime (fun v => (v, n2)) ps
  have hkeys1 : (ps.map (fun p => (p.1, (p.2, n1)))).map Prod.fst = ps.map Prod.fst :=
    keys_map_retime (fun v => (v, n1)) ps
  refine contentA_runW_noop (fun v : List String × Nat => v.1) _ _
    (by rw [hkeys2]; exact hnd) ?_ ?_
  · intro p hp
    obtain ⟨p0, hp0, hpp⟩ := List.mem_map.mp hp
    rw [← hpp]
    refine mem_keys_runW_batch (fun _ w => w) _ t p0.1 ?_
    rw [hkeys1]
    exact List.mem_map.mpr ⟨p0, hp0, rfl⟩
  · intro p hp q hq hqk
    obtain ⟨p0, hp0, hpp⟩ := List.mem_map.mp hp
    have hval := val_runW_replace (ps.map (fun p => (p.1, (p.2, n1)))) t p0.1 (p0.2, n1)
      (by rw [hkeys1]; exact hnd)
      (List.mem_map.mpr ⟨p0, hp0, rfl⟩) q hq (by rw [hqk, ← hpp])
    rw [hval, ← hpp]

/-- C6: running the Master Catalog Updater twice for the same facility and
date over unchanged lake data leaves model_master, defect_master and
model_layout_master with exactly the same keys as one run, and the layout
catalog with the same stored ref_panels; only the updated_at values can
differ between the two runs. -/
theorem c6_catalog_idempotent :
    ∀ (hist : List HistRow) (insp : List InspRow) (pns : List PartNoRow)
      (pms : List PnlMapRow) (facility target_date : String)
      (mm dm : List (String × Nat)) (lm : List (String × (List String × Nat)))
      (n1 n2 : Nat),
    ((update_masters hist insp facility target_date
        (update_masters hist insp facility target_date mm dm n1).1
        (update_masters hist insp facility target_date mm dm n1).2 n2).1.map Prod.fst =
      (update_masters hist insp facility target_date mm dm n1).1.map Prod.fst) ∧
    ((update_masters hist insp facility target_date
        (update_masters hist insp facility target_date mm dm n1).1
        (update_masters hist insp facility target_date mm dm n1).2 n2).2.map Prod.fst =
      (update_masters hist insp facility target_date mm dm n1).2.map Prod.fst) ∧
    (contentA (fun v => v.1) (update_model_layout_link pns pms
        (update_model_layout_link pns pms lm n1) n2) =
      contentA (fun v => v.1) (update_model_layout_link pns pms lm n1)) ∧
    ((update_model_layout_link pns pms
        (update_model_layout_link pns pms lm n1) n2).map Prod.fst =
      (update_model_layout_link pns pms lm n1).map Prod.fst) := by
  intro hist insp pns pms facility target_date mm dm lm n1 n2
  have hlnd : ((model_layout_pairs pns pms).map Prod.fst).Nodup := by
    have heq : (model_layout_pairs pns pms).map Prod.fst =
        dedupFirst ((pns.flatMap (fun pn =>
          (pms.filter (fun pm => decide (pm.part_no_name = pn.part_no_name))).filterMap
            (fun pm => pm.ref_panels.map (fun rp => (pn.model_code, rp))))).map
              (fun p => p.1)) := by
      simp only [model_layout_pairs]
      exact keys_map_pairing _ _
    rw [heq]
    exact nodup_dedupFirst _
  have hlay := layout_run_twice (model_layout_pairs pns pms) hlnd lm n1 n2
  refine ⟨?_, ?_, hlay, ?_⟩
  · exact master_run_twice (model_master_keys hist facility target_date)
      (nodup_dedupFirst _) mm n1 n2
  · exact master_run_twice (defect_master_keys insp facility target_date)
      (nodup_dedupFirst _) dm n1 n2
  · show (update_model_layout_link pns pms
        (update_model_layout_link pns pms lm n1) n2).map Prod.fst =
      (update_model_layout_link pns pms lm n1).map Prod.fst
    unfold update_model_layout_link
    calc (runW (fun _ w => w)
            ((model_layout_pairs pns pms).map (fun p => (p.1, (p.2, n2))))
            (runW (fun _ w => w)
              ((model_layout_pairs pns pms).map (fun p => (p.1, (p.2, n1)))) lm)).map
              Prod.fst
        = (contentA (fun v : List String × Nat => v.1) (runW (fun _ w => w)
            ((model_layout_pairs pns pms).map (fun p => (p.1, (p.2, n2))))
            (runW (fun _ w => w)
              ((model_layout_pairs pns pms).map (fun p => (p.1, (p.2, n1)))) lm))).map
              Prod.fst := (contentA_fst _ _).symm
      _ = (contentA (fun v : List String × Nat => v.1) (runW (fun _ w => w)
            ((model_layout_pairs pns pms).map (fun p => (p.1, (p.2, n1)))) lm)).map
              Prod.fst := by rw [hlay]
      _ = (runW (fun _ w => w)
            ((model_layout_pairs pns pms).map (fun p => (p.1, (p.2, n1)))) lm).map
              Prod.fst := contentA_fst _ _

/-- C7 counterexample: re-observing an existing model_layout_master key
with a changed layout overwrites the stored ref_panels column - the row
keyed M1 goes from layout A1 to layout B2 - so it is false that on
re-observation of an existing key every stored column other than updated_at
stays unchanged. -/
theorem c7_counterexample :
    update_model_layout_link
      [{ model_code := "M1", part_no_name := "PN1" }]
      [{ part_no_name := "PN1", ref_panels := some ["B2"] }]
      [("M1", (["A1"], 0))] 5 = [("M1", (["B2"], 5))] ∧
    (["B2"] : List String) ≠ ["A1"] := by decide

/-- C7 amended: every catalog upsert preserves rows and key identity - the
key list is either unchanged (key already present) or extended by exactly
the new key, and rows under other keys are untouched; on conflict,
model_master and defect_master rows (whose only non-key column is the
timestamp) become the new timestamp, while a model_layout_master row gets
BOTH its ref_panels and its updated_at replaced by the new values, so a
non-key, non-timestamp column does change whenever the newly derived layout
differs. -/
theorem c7_amended :
    (∀ (beta : Type) (t : List (String × beta)) (k : String) (v : beta),
      ((upsertW (fun _ w => w) t k v).map Prod.fst = t.map Prod.fst ∧
        k ∈ t.map Prod.fst) ∨
      ((upsertW (fun _ w => w) t k v).map Prod.fst = t.map Prod.fst ++ [k] ∧
        k ∉ t.map Prod.fst)) ∧
    (∀ (beta : Type) (t : List (String × beta)) (k k1 : String) (v : beta),
      k1 ≠ k →
      lookupW (upsertW (fun _ w => w) t k v) k1 = lookupW t k1) ∧
    (∀ (t : List (String × Nat)) (k : String) (now : Nat),
      lookupW (upsertW (fun _ w => w) t k now) k = some now) ∧
    (∀ (t : List (String × (List String × Nat))) (k : String)
       (rp : List String) (now : Nat),
      lookupW (upsertW (fun _ w => w) t k (rp, now)) k = some (rp, now)) := by
  refine ⟨fun beta t k v => keys_upsertW _ t k v,
    fun beta t k k1 v hk => lookupW_upsertW_other _ t k k1 v hk,
    fun t k now => ?_, fun t k rp now => ?_⟩
  · rw [lookupW_upsertW_self]
    cases lookupW t k <;> rfl
  · rw [lookupW_upsertW_self]
    cases lookupW t k <;> rfl

/-- C7 amended witness: rows under other keys are untouched - upserting key
N into a table holding key M leaves the row of M unchanged. -/
theorem c7_witness :
    lookupW (upsertW (fun _ w => w) [(("M" : String), (3 : Nat))] "N" 7) "M" =
      some 3 := by
  have h := c7_amended.2.1 Nat [(("M" : String), (3 : Nat))] "N" "M" 7 (by decide)
  rw [h]
  decide

/-- C9: every row emitted by the history-driven analysis query has a
panel_map of exactly 260 entries, each a 0/1 presence flag; and a product
with no inspection rows carrying a panel address gets the all-zero map, an
empty panel_addrs list and total_defects zero. -/
theorem c9_panel_map_shape :
    ∀ (insp : List InspRow) (hist : List HistRow)
      (facility target_day now : String) (rows : List StatRow9) (r : StatRow9),
    historyAnalysis insp hist facility target_day now = Except.ok rows →
    r ∈ rows →
    r.panel_map.length = 260 ∧
    (∀ x ∈ r.panel_map, x = 0 ∨ x = 1) ∧
    ((∀ i ∈ insp, i.product_id ≠ r.product_id ∨ i.panel_addr = none) →
      (∀ x ∈ r.panel_map, x = 0) ∧ r.panel_addrs = [] ∧ r.total_defects = 0) := by
  intro insp hist facility target_day now rows r hok hr
  unfold historyAnalysis at hok
  cases hgd : glass_defects insp with
  | error e =>
    rw [hgd] at hok
    simp only [Except.map] at hok
    exact absurd hok (by intro hh; cases hh)
  | ok gds =>
    rw [hgd] at hok
    simp only [Except.map, Except.ok.injEq] at hok
    rw [← hok] at hr
    obtain ⟨h, hh, hhr⟩ := List.mem_map.mp hr
    have hrpid : r.product_id = h.product_id := by rw [← hhr]
    refine ⟨?_, ?_, ?_⟩
    · rw [← hhr]
      simp
    · intro x hx
      rw [← hhr] at hx
      simp only [List.mem_map] at hx
      obtain ⟨idx, _, hxval⟩ := hx
      by_cases hc : (((gds.find? (fun g =>
          decide (g.product_id = h.product_id))).map
            (fun g => g.defect_indices)).getD []).contains (idx : Int) = true
      · rw [if_pos hc] at hxval
        exact Or.inr hxval.symm
      · rw [if_neg hc] at hxval
        exact Or.inl hxval.symm
    · intro hnod
      have hfind : gds.find? (fun g => decide (g.product_id = h.product_id)) = none := by
        cases hf : gds.find? (fun g => decide (g.product_id = h.product_id)) with
        | none => rfl
        | some g =>
          exfalso
          have hgmem : g ∈ gds := List.mem_of_find?_eq_some hf
          have hgp : g.product_id = h.product_id := by
            have := List.find?_some hf
            simpa using this
          obtain ⟨rr, hrr, a, hpa, hpid⟩ := glass_defects_pid insp gds hgd g hgmem
          rcases hnod rr hrr with hne | hnull
          · exact hne (by rw [hpid, hgp, hrpid])
          · rw [hnull] at hpa
            exact absurd hpa (by intro hh; cases hh)
      refine ⟨?_, ?_, ?_⟩
      · intro x hx
        rw [← hhr] at hx
        rw [hfind] at hx
        simp only [Option.map_none, Option.getD_none, List.mem_map] at hx
        obtain ⟨idx, _, hxval⟩ := hx
        rw [if_neg (by simp)] at hxval
        exact hxval.symm
      · rw [← hhr]
        rw [hfind]
        rfl
      · rw [← hhr]
        rw [hfind]
        rfl

/-- C9 witness: the shape statement evaluated on one concrete on-day
history row with an empty inspection set: the emitted row has 260 zero
flags, no raw addresses and zero total defects. -/
theorem c9_witness :
    historyAnalysis [] [c9hist] "F1" "2024-03-05" "T" = Except.ok [c9row] ∧
    c9row.panel_map.length = 260 ∧ (∀ x ∈ c9row.panel_map, x = 0 ∨ x = 1) ∧
    (∀ x ∈ c9row.panel_map, x = 0) ∧ c9row.panel_addrs = [] ∧
    c9row.total_defects = 0 := by
  have hq : historyAnalysis [] [c9hist] "F1" "2024-03-05" "T" =
      Except.ok [c9row] := by decide
  have hshape := c9_panel_map_shape [] [c9hist] "F1" "2024-03-05" "T" [c9row] c9row
    hq (List.mem_singleton.mpr rfl)
  have hnod := hshape.2.2 (by intro i hi; cases hi)
  exact ⟨hq, hshape.1, hshape.2.1, hnod.1, hnod.2.1, hnod.2.2⟩
